import Mathlib

/-!
Verification development for the text quality engine in
`utils/quality_checks.py`.  The Python module is shallowly embedded:
strings become `List Char` / `String`, Python floats become `ℚ`
(arithmetic on the values computed here is exact decimal arithmetic),
Python's `re` operations are modelled by dedicated recursive scanners
that reproduce the scanning, greediness and backtracking behaviour of
the concrete patterns used by the module.
-/

set_option maxRecDepth 100000

namespace QC

/-- Helper for termination: `dropWhile` never lengthens a list. -/
theorem len_dropWhile_le (p : α → Bool) (l : List α) :
    (l.dropWhile p).length ≤ l.length := by
  induction l with
  | nil => simp
  | cons a l ih =>
    rw [List.dropWhile_cons]
    split
    · exact Nat.le_succ_of_le ih
    · simp

/-- Python whitespace (`str.isspace`, `str.strip`, `str.split`, and `\s`
of the `re` module on `str` patterns): the Unicode whitespace set. -/
def pyIsSpace (c : Char) : Bool :=
  decide ((9 ≤ c.toNat ∧ c.toNat ≤ 13) ∨ (28 ≤ c.toNat ∧ c.toNat ≤ 31) ∨
    c.toNat = 32 ∨ c.toNat = 0x85 ∨ c.toNat = 0xA0 ∨ c.toNat = 0x1680 ∨
    (0x2000 ≤ c.toNat ∧ c.toNat ≤ 0x200A) ∨ c.toNat = 0x2028 ∨
    c.toNat = 0x2029 ∨ c.toNat = 0x202F ∨ c.toNat = 0x205F ∨ c.toNat = 0x3000)

/-- Character class `[A-Za-z0-9؀-ۿ]` used by `_words`. -/
def isTokChar (c : Char) : Bool :=
  decide ((65 ≤ c.toNat ∧ c.toNat ≤ 90) ∨ (97 ≤ c.toNat ∧ c.toNat ≤ 122) ∨
    (48 ≤ c.toNat ∧ c.toNat ≤ 57) ∨ (0x600 ≤ c.toNat ∧ c.toNat ≤ 0x6FF))

/-- Python's `\w` (Unicode word character: alphanumeric or underscore),
restricted to the Basic Latin and Arabic blocks that the module's
patterns can encounter.  Within the Arabic block U+0600–U+06FF the
non-alphanumeric code points (punctuation, format controls, combining
marks, symbols) are excluded, exactly as in Python's Unicode database:
U+0600–U+061F, U+064B–U+065F, U+066A–U+066D, U+0670, U+06D4,
U+06D6–U+06E4, U+06E7–U+06ED, U+06FD, U+06FE are not word characters. -/
def pyIsW (c : Char) : Bool :=
  decide ((65 ≤ c.toNat ∧ c.toNat ≤ 90) ∨ (97 ≤ c.toNat ∧ c.toNat ≤ 122) ∨
    (48 ≤ c.toNat ∧ c.toNat ≤ 57) ∨ c.toNat = 95 ∨
    ((0x620 ≤ c.toNat ∧ c.toNat ≤ 0x6FF) ∧
      ¬(0x64B ≤ c.toNat ∧ c.toNat ≤ 0x65F) ∧
      ¬(0x66A ≤ c.toNat ∧ c.toNat ≤ 0x66D) ∧
      c.toNat ≠ 0x670 ∧ c.toNat ≠ 0x6D4 ∧
      ¬(0x6D6 ≤ c.toNat ∧ c.toNat ≤ 0x6E4) ∧
      ¬(0x6E7 ≤ c.toNat ∧ c.toNat ≤ 0x6ED) ∧
      c.toNat ≠ 0x6FD ∧ c.toNat ≠ 0x6FE))

/-- Python `str.lower` restricted to the alphabets the module handles:
ASCII `A`–`Z` map to `a`–`z`, everything else (Arabic has no case,
digits, punctuation, whitespace) is fixed. -/
def pyLowerChar (c : Char) : Char :=
  if 65 ≤ c.toNat ∧ c.toNat ≤ 90 then Char.ofNat (c.toNat + 32) else c

/-- Python `str.strip`: drop leading and trailing whitespace. -/
def pyStrip (l : List Char) : List Char :=
  ((l.dropWhile pyIsSpace).reverse.dropWhile pyIsSpace).reverse

/-- State machine for `collapseWs`: the flag records whether the
scanner is inside a whitespace run (whose first character has already
emitted the single replacement space). -/
def collapseWsAux : List Char → Bool → List Char
  | [], _ => []
  | c :: rest, inRun =>
    if pyIsSpace c then
      if inRun then collapseWsAux rest true
      else ' ' :: collapseWsAux rest true
    else c :: collapseWsAux rest false

/-- Replace every maximal whitespace run by a single space, as
`re.sub(r"\s+", " ", ·)` does. -/
def collapseWs (l : List Char) : List Char := collapseWsAux l false

/-- Embedding of `_normalize`: `re.sub(r"\s+", " ", s.strip())`. -/
def pyNormalize (l : List Char) : List Char := collapseWs (pyStrip l)

/-- Sentence-terminal characters of the split pattern
`(?<=[\.\!\؟\!])\s+|\n+`: the class `[\.\!\؟\!]` is `{., !, ؟}`. -/
def isSentPunct (c : Char) : Bool := c = '.' || c = '!' || c = '؟'

/-- Scanner for `re.split(r"(?<=[\.\!\؟\!])\s+|\n+", text)` on the
already normalized text.  Normalized text contains no newline and every
whitespace run is a single space, so a split point is exactly a space
whose preceding character is sentence-terminal punctuation (the `\n+`
alternative of the source pattern can never fire after `_normalize`).
The accumulator holds the current part in reverse; its head is the
character immediately before the scanner's position. -/
def sentSplitAux : List Char → List Char → List (List Char)
  | [], acc => [acc.reverse]
  | c :: rest, acc =>
    if pyIsSpace c && (match acc with | p :: _ => isSentPunct p | [] => false)
    then acc.reverse :: sentSplitAux rest []
    else sentSplitAux rest (c :: acc)

/-- Embedding of `_split_sentences`: split the normalized text, strip
each part, drop empty parts. -/
def splitSentences (l : List Char) : List (List Char) :=
  ((sentSplitAux (pyNormalize l) []).map pyStrip).filter (fun p => !p.isEmpty)

/-- Scanner for `re.split(r"\n\s*\n", text)` on the raw text.  A match
starts at a newline whose following maximal whitespace run contains at
least one further newline; the greedy `\s*` backtracks so that the match
ends at the last newline of that run. -/
def paraSplitF : ℕ → List Char → List Char → List (List Char)
  | 0, _, acc => [acc.reverse]
  | _ + 1, [], acc => [acc.reverse]
  | fuel + 1, c :: rest, acc =>
    if c = '\n' then
      if '\n' ∈ rest.takeWhile pyIsSpace then
        acc.reverse ::
          paraSplitF fuel
            (rest.drop ((rest.takeWhile pyIsSpace).length - 1 -
              ((rest.takeWhile pyIsSpace).reverse.findIdx
                (fun x => x = '\n')) + 1)) []
      else paraSplitF fuel rest ('\n' :: acc)
    else paraSplitF fuel rest (c :: acc)

/-- Embedding of `_split_paragraphs`.  Every recursive step of
`paraSplitF` consumes at least one character, so `length + 1` units of
fuel make the zero-fuel branch unreachable; the fuel only serves to
keep the recursion structural. -/
def splitParagraphs (l : List Char) : List (List Char) :=
  ((paraSplitF (l.length + 1) l []).map pyStrip).filter (fun p => !p.isEmpty)

/-- State machine for `runsBy`. -/
def runsByAux (p : Char → Bool) : List Char → List Char → List (List Char)
  | [], cur => if cur.isEmpty then [] else [cur.reverse]
  | c :: rest, cur =>
    if p c then runsByAux p rest (c :: cur)
    else if cur.isEmpty then runsByAux p rest []
    else cur.reverse :: runsByAux p rest []

/-- Maximal runs of characters satisfying `p` (the semantics of
`re.findall` for a single positive character class, and of
`str.split()` for the complement of whitespace); the accumulator holds
the current run in reverse. -/
def runsBy (p : Char → Bool) (l : List Char) : List (List Char) :=
  runsByAux p l []

/-- Embedding of `_words`:
`re.findall(r"[A-Za-z0-9؀-ۿ]+", _normalize(text))`. -/
def wordsOf (l : List Char) : List String :=
  (runsBy isTokChar (pyNormalize l)).map (fun r => ⟨r⟩)

/-- Python `str.lower` on a token. -/
def pyLower (s : String) : String := ⟨s.data.map pyLowerChar⟩

/-- Python `str.split()` (split on whitespace runs, drop empties);
used by the module to build its lexicon sets from literal strings and
for `gram.split()` in the repeated-phrase filter. -/
def pySplitWs (s : String) : List String :=
  (runsBy (fun c => !pyIsSpace c) s.data).map (fun r => ⟨r⟩)

/-- Distinct elements of a list in order of first occurrence — the
iteration order of a Python `dict` / `collections.Counter`. -/
def firstDedup [DecidableEq α] : List α → List α
  | [] => []
  | x :: xs => x :: (firstDedup xs).filter (fun y => y ≠ x)

/-- Embedding of `collections.Counter(l)` as an association list in
first-occurrence order. -/
def counterList [DecidableEq α] (l : List α) : List (α × ℕ) :=
  (firstDedup l).map (fun x => (x, l.count x))

/-- Embedding of `Counter.most_common(n)`: the documented behaviour is
`sorted(items, key=count, reverse=True)[:n]` with a stable sort, which
insertion sort by `b.2 ≤ a.2` reproduces. -/
def mostCommon [DecidableEq α] (n : ℕ) (l : List α) : List (α × ℕ) :=
  (List.insertionSort (fun a b => b.2 ≤ a.2) (counterList l)).take n

/-- The module's stop-word set `AR_STOPWORDS`, built by splitting the
source's literal string on whitespace (the Python `set` only affects
duplicate entries, which is irrelevant for membership). -/
def AR_STOPWORDS : List String :=
  pySplitWs ("في من على إلى عن مع حتى ثم أو أم بل لا لن لم إن أن كان تكون يكون قد قدّ هل ما لا ليس ليسوا التي الذي الذين التي هذا هذه ذلك تلك هناك هنا جدا فقط دون حسب عبر لدى لدى قد حيث كما كذلك بين ضمن وراء أمام قبل بعد منذ طوال خلال ضد عند نحو سوى غير مثل مثلما لأن إذ إذا لكن لكي كي إلا بما بما أنَّ أنّ إنَّ إنما بينما بينما عندما حين إذن إذًا إذْ ربما تقريبًا غالبًا نوعًا ما")

/-- The module's sensory lexicon `SENSORY_TERMS`. -/
def SENSORY_TERMS : List String :=
  pySplitWs ("قوام رائحة نكهة طازج طزاجة حار سخن بارد دسم مقرمش طري متماسك حلو مالح حامض متوازن مدخن محمّر مشوي مطبوخ مطهّي ناعم خشن زبدة زبدي كريمي سائل كثيف عطري عبق عطر غني خفيف صلب طراوة")

/-- The module's absolute-words lexicon `ABSOLUTE_WORDS`:
`"دائمًا أبدًا كلّ جميع حتمًا مؤكد بلا_شك بلا_منافس الأفضل رقم_1 لا_يقارن لا_يُهزم".replace("_"," ").split()`.
The single-character replacement `replace("_", " ")` is the map sending
`'_'` to `' '`. -/
def ABSOLUTE_WORDS : List String :=
  pySplitWs ⟨("دائمًا أبدًا كلّ جميع حتمًا مؤكد بلا_شك بلا_منافس الأفضل رقم_1 لا_يقارن لا_يُهزم" : String).data.map
    (fun c => if c = '_' then ' ' else c)⟩

/-- Tokens of the tiny regular-expression fragment the module uses:
literal characters, `\s+`, a single `\s`, and `.*`. -/
inductive RTok where
  | lit (c : Char)
  | wsPlus
  | ws1
  | dotStar
  deriving DecidableEq

/-- Literal part of a pattern. -/
def litToks (s : String) : List RTok := s.data.map RTok.lit

/-- Anchored match of a pattern at the head of `s` under Python
backtracking semantics, returning the remainder after the match.  `ci`
is the `re.IGNORECASE` flag (comparison through `pyLowerChar`).  A
greedy quantifier tries the longest feasible consumption first and
backtracks downwards (`\s+` down to one character, `.*` down to zero
characters); `.` does not match a newline.  Every recursive call is on
the tail of the pattern, so `ps.length` units of fuel are exactly
enough; the fuel argument only keeps the recursion structural. -/
def tryMatchF (ci : Bool) : ℕ → List RTok → List Char → Option (List Char)
  | _, [], s => some s
  | 0, _ :: _, _ => none
  | fuel + 1, RTok.lit c :: ps, s =>
    match s with
    | [] => none
    | x :: s2 =>
      if (if ci then pyLowerChar x = pyLowerChar c else x = c)
      then tryMatchF ci fuel ps s2 else none
  | fuel + 1, RTok.ws1 :: ps, s =>
    match s with
    | [] => none
    | x :: s2 => if pyIsSpace x then tryMatchF ci fuel ps s2 else none
  | fuel + 1, RTok.wsPlus :: ps, s =>
    (List.range ((s.takeWhile pyIsSpace).length + 1)).reverse.findSome?
      (fun k => if k = 0 then none else tryMatchF ci fuel ps (s.drop k))
  | fuel + 1, RTok.dotStar :: ps, s =>
    (List.range ((s.takeWhile (fun c => c ≠ '\n')).length + 1)).reverse.findSome?
      (fun k => tryMatchF ci fuel ps (s.drop k))

/-- Anchored regex match with adequate fuel. -/
def tryMatch (ci : Bool) (ps : List RTok) (s : List Char) :
    Option (List Char) :=
  tryMatchF ci ps.length ps s

/-- Scanner for the count of non-overlapping matches of a pattern,
left to right, as `re.finditer` produces them: on failure the scan
advances one character; after a non-empty match it resumes at the match
end; an empty match also advances one character. -/
def scanCountF (ci : Bool) (ps : List RTok) : ℕ → List Char → ℕ
  | 0, _ => 0
  | _ + 1, [] => match tryMatch ci ps [] with | some _ => 1 | none => 0
  | fuel + 1, c :: rest =>
    match tryMatch ci ps (c :: rest) with
    | some r =>
      if r.length < rest.length + 1 then 1 + scanCountF ci ps fuel r
      else 1 + scanCountF ci ps fuel rest
    | none => scanCountF ci ps fuel rest

/-- Count of the non-overlapping matches of a pattern in a text with
adequate fuel (each step of `scanCountF` either consumes match
characters or moves past one character, so `length + 1` units are
enough). -/
def scanCount (ci : Bool) (ps : List RTok) (l : List Char) : ℕ :=
  scanCountF ci ps (l.length + 1) l

/-- Existence of a match of any of the alternative patterns anywhere in
the text: `re.search` on an alternation. -/
def searchRE (ci : Bool) (alts : List (List RTok)) (t : List Char) : Bool :=
  (List.range (t.length + 1)).any
    (fun i => alts.any (fun a => (tryMatch ci a (t.drop i)).isSome))

/-- The `BOILERPLATE_PATTERNS` list, translated pattern by pattern. -/
def boilerPats : List (List RTok) :=
  [litToks ("من") ++ [RTok.wsPlus] ++ litToks ("أجمل") ++
     [RTok.wsPlus, RTok.dotStar] ++ litToks ("مطاعم"),
   litToks ("لا") ++ [RTok.wsPlus] ++ litToks ("تفوت") ++
     [RTok.wsPlus, RTok.dotStar] ++ litToks ("تجربة"),
   litToks ("يقدم") ++ [RTok.wsPlus, RTok.dotStar] ++ litToks ("قائمة") ++
     [RTok.wsPlus] ++ litToks ("متنوعة") ++ [RTok.wsPlus, RTok.dotStar],
   litToks ("الخيار") ++ [RTok.wsPlus] ++ litToks ("الأفضل") ++
     [RTok.wsPlus, RTok.dotStar],
   litToks ("يعتبر") ++ [RTok.wsPlus, RTok.dotStar] ++ litToks ("من") ++
     [RTok.wsPlus] ++ litToks ("أفضل") ++ [RTok.wsPlus] ++ litToks ("الخيارات"),
   litToks ("يتميز") ++ [RTok.wsPlus, RTok.dotStar] ++ litToks ("بالجودة") ++
     [RTok.wsPlus] ++ litToks ("العالية"),
   litToks ("أسعار") ++ [RTok.wsPlus] ++ litToks ("مناسبة") ++
     [RTok.wsPlus, RTok.dotStar] ++ litToks ("لجميع")]

/-- Number of boilerplate flags: one per `re.finditer` match, summed
over the patterns, with `re.IGNORECASE` as in the source. -/
def boilerCount (t : String) : ℕ :=
  (boilerPats.map (fun ps => scanCount true ps t.data)).sum

/-- Scanner for `len(re.findall(r"\bتم\s+\w+", text))`.  At a position
where the previous character is not a word character (`\b`), the two
literals `تم`, a non-empty whitespace run and a following word
character give a match (whitespace and word characters are disjoint, so
the greedy `\s+` cannot backtrack into a successful `\w`); the scan
resumes after the greedy `\w+` run.  Otherwise the scan advances one
character. -/
def passiveScanF : ℕ → Bool → List Char → ℕ
  | 0, _, _ => 0
  | _ + 1, _, [] => 0
  | fuel + 1, prevW, c :: rest =>
    if (!prevW) && c = 'ت' && rest.head? = some 'م' then
      let afterM := rest.tail
      let m := (afterM.takeWhile pyIsSpace).length
      let afterWs := afterM.drop m
      if 1 ≤ m ∧ (afterWs.head?.map pyIsW).getD false then
        let r := (afterWs.takeWhile pyIsW).length
        1 + passiveScanF fuel true (afterWs.drop r)
      else passiveScanF fuel (pyIsW c) rest
    else passiveScanF fuel (pyIsW c) rest

/-- The passive-marker scan with adequate fuel (each step consumes at
least one character), starting at a word boundary. -/
def passiveScan (l : List Char) : ℕ := passiveScanF (l.length + 1) false l

/-- Existence of one of a list of literal phrases in the text with a
word boundary on each side: `re.search(r"\b(p1|p2|…)\b", text)` where
every alternative is a literal. -/
def bMatchAt (t : List Char) (i : ℕ) (p : List Char) : Bool :=
  ((t.drop i).take p.length == p) &&
  (match i with
   | 0 => true
   | Nat.succ j => match t[j]? with | some c => !pyIsW c | none => true) &&
  (match t[i + p.length]? with | some c => !pyIsW c | none => true)

/-- Search for any of the boundary-delimited literal alternatives. -/
def searchPhrases (t : List Char) (ps : List String) : Bool :=
  (List.range (t.length + 1)).any (fun i => ps.any (fun p => bMatchAt t i p.data))

/-- Embedding of `_clip(x, lo, hi) = max(lo, min(hi, x))`. -/
def pyClip (x lo hi : ℚ) : ℚ := max lo (min hi x)

/-- Embedding of `_percent(x, total) = 100.0*x/total if total else 0.0`. -/
def pyPercent (x total : ℚ) : ℚ := if total = 0 then 0 else 100 * x / total

/-- Round half to even at `d` decimal digits, the semantics of Python's
`round(x, d)` on the exact rational values computed here; applied to the
report fields exactly where the source applies `round`. -/
def roundHalfEven (q : ℚ) : ℤ :=
  if q - ⌊q⌋ < 1 / 2 then ⌊q⌋
  else if 1 / 2 < q - ⌊q⌋ then ⌊q⌋ + 1
  else if ⌊q⌋ % 2 = 0 then ⌊q⌋ else ⌊q⌋ + 1

/-- Python `round(q, d)`. -/
def pyRound (q : ℚ) (d : ℕ) : ℚ := (roundHalfEven (q * 10 ^ d) : ℚ) / 10 ^ d

/-- The word list of the input text. -/
def wordsS (t : String) : List String := wordsOf t.data

/-- `word_count`. -/
def wordCount (t : String) : ℕ := (wordsS t).length

/-- The sentence list of the input text. -/
def sentencesS (t : String) : List (List Char) := splitSentences t.data

/-- `sentence_count`. -/
def sentenceCount (t : String) : ℕ := (sentencesS t).length

/-- `paragraph_count` (`len(paragraphs)`). -/
def paragraphCount (t : String) : ℕ := (splitParagraphs t.data).length

/-- `sent_lens = [len(_words(s)) for s in sentences] or [0]`. -/
def sentLens (t : String) : List ℕ :=
  let l := (sentencesS t).map (fun s => (wordsOf s).length)
  if l.isEmpty then [0] else l

/-- `avg_sent = sum(sent_lens)/len(sent_lens)`. -/
def avgSent (t : String) : ℚ :=
  (((sentLens t).map (fun n => (n : ℚ))).sum) / ((sentLens t).length : ℚ)

/-- The lowercased first tokens of the sentences that have a token:
`starts`. -/
def startsS (t : String) : List String :=
  (sentencesS t).filterMap (fun s => ((wordsOf s).head?).map pyLower)

/-- `start_top = start_counts.most_common(5)`. -/
def startTop (t : String) : List (String × ℕ) := mostCommon 5 (startsS t)

/-- `start_hhi = sum((c/len(starts))**2 for _, c in start_top) if starts
else 0.0`. -/
def startHHI (t : String) : ℚ :=
  if (startsS t).isEmpty then 0
  else (((startTop t).map
    (fun p => ((p.2 : ℚ) / ((startsS t).length : ℚ)) ^ 2)).sum)

/-- `sens_hits = sum(1 for w in words if w.lower() in SENSORY_TERMS)`. -/
def sensHits (t : String) : ℕ :=
  (wordsS t).countP (fun w => SENSORY_TERMS.contains (pyLower w))

/-- `sensory_ratio = _percent(sens_hits, word_count)`. -/
def sensoryRatio (t : String) : ℚ := pyPercent (sensHits t) (wordCount t)

/-- Embedding of `_ttr(words)`. -/
def ttrOf (t : String) : ℚ :=
  if (wordsS t).isEmpty then 0
  else ((firstDedup ((wordsS t).map pyLower)).length : ℚ) /
    ((max 1 (wordsS t).length : ℕ) : ℚ)

/-- `toks_lower = [w.lower() for w in words if w.lower() not in
AR_STOPWORDS]`. -/
def toksLower (t : String) : List String :=
  ((wordsS t).map pyLower).filter (fun w => !AR_STOPWORDS.contains w)

/-- Embedding of `_ngrams(tokens, n)`; `List.range (len + 1 - n)` is
Python's `range(len(tokens)-n+1)`, empty when `len(tokens) < n`. -/
def ngramsOf (toks : List String) (n : ℕ) : List String :=
  (List.range (toks.length + 1 - n)).map
    (fun i => " ".intercalate ((toks.drop i).take n))

/-- The flagged n-grams after sorting: bigrams from `most_common(30)`
with count ≥ 3, then trigrams from `most_common(30)` with count ≥ 2,
sorted by `key=lambda x: (-x[1], -len(x[0]))` (count descending, then
character length descending, stable). -/
def repeatedAll (t : String) : List (String × ℕ) :=
  let bi := ngramsOf (toksLower t) 2
  let tri := ngramsOf (toksLower t) 3
  let rb := (mostCommon 30 bi).filter
    (fun g => 3 ≤ g.2 && 2 ≤ (pySplitWs g.1).length)
  let rt := (mostCommon 30 tri).filter
    (fun g => 2 ≤ g.2 && 3 ≤ (pySplitWs g.1).length)
  List.insertionSort
    (fun a b => b.2 < a.2 ∨ (a.2 = b.2 ∧ b.1.length ≤ a.1.length)) (rb ++ rt)

/-- `repeated_phrases` as reported: `repeated[:15]`. -/
def repeatedPhrases (t : String) : List (String × ℕ) := (repeatedAll t).take 15

/-- `passive_hits = len(re.findall(r"\bتم\s+\w+", text))` on the raw
text; the start of the string is a word boundary. -/
def passiveHits (t : String) : ℕ := passiveScan t.data

/-- `passive_ratio = _percent(passive_hits, max(1, sentence_count))`. -/
def passiveRatio (t : String) : ℚ :=
  pyPercent (passiveHits t) ((max 1 (sentenceCount t) : ℕ) : ℚ)

/-- `abs_count = sum(1 for w in words if w in ABSOLUTE_WORDS)` — note:
no lowercasing here, unlike the sensory scan. -/
def absCount (t : String) : ℕ :=
  (wordsS t).countP (fun w => ABSOLUTE_WORDS.contains w)

/-- The four E-E-A-T keyword searches, each `1 if re.search(...) else 0`;
every alternative in the four patterns is a literal delimited by `\b`. -/
def eeatExperience (t : String) : ℕ :=
  if searchPhrases t.data ["جرّبت", "زرنا", "تذوّقنا", "زيارة", "تجربت", "من واقع الخبرة"]
  then 1 else 0

/-- The `expertise` E-E-A-T signal. -/
def eeatExpertise (t : String) : ℕ :=
  if searchPhrases t.data ["تقنية", "تحميص", "تتبيل", "درجات التسوية", "معيار", "منهجية", "قرينة"]
  then 1 else 0

/-- The `author` E-E-A-T signal. -/
def eeatAuthor (t : String) : ℕ :=
  if searchPhrases t.data ["كاتب", "محرر", "فريق التحرير", "توقيع", "منهجية التحرير"]
  then 1 else 0

/-- The `trust` E-E-A-T signal. -/
def eeatTrust (t : String) : ℕ :=
  if searchPhrases t.data ["شفافية", "مصدر", "إفصاح", "حدود المنهجية", "اعتمدنا"]
  then 1 else 0

/-- `eeat_score = sum(eeat_signals.values()) / 4 * 100`. -/
def eeatScore (t : String) : ℚ :=
  ((eeatExperience t + eeatExpertise t + eeatAuthor t + eeatTrust t : ℕ) : ℚ)
    / 4 * 100

/-- Alternatives of `r"Pro Tip|نصيحة|تلميح|ملاحظة عملية"` (with `re.I`). -/
def infoPat1 : List (List RTok) :=
  [litToks ("Pro Tip"), litToks ("نصيحة"), litToks ("تلميح"), litToks ("ملاحظة عملية")]

/-- Alternatives of `r"مقارنة|أقرب\s+إلى|يشبه|يفوق|أقل"`. -/
def infoPat2 : List (List RTok) :=
  [litToks ("مقارنة"),
   litToks ("أقرب") ++ [RTok.wsPlus] ++ litToks ("إلى"),
   litToks ("يشبه"), litToks ("يفوق"), litToks ("أقل")]

/-- Alternatives of
`r"سلبية\s+صغيرة|نقطة\s+لِلتحسين|يمكن\s+تحسين|ملاحظة\s+سلبية"`. -/
def infoPat3 : List (List RTok) :=
  [litToks ("سلبية") ++ [RTok.wsPlus] ++ litToks ("صغيرة"),
   litToks ("نقطة") ++ [RTok.wsPlus] ++ litToks ("لِلتحسين"),
   litToks ("يمكن") ++ [RTok.wsPlus] ++ litToks ("تحسين"),
   litToks ("ملاحظة") ++ [RTok.wsPlus] ++ litToks ("سلبية")]

/-- Alternatives of `r"(شمال|جنوب|شرق|غرب|كورنيش|مول|ممشى|حي)\s"`. -/
def infoPat4 : List (List RTok) :=
  (["شمال", "جنوب", "شرق", "غرب", "كورنيش", "مول", "ممشى", "حي"]).map
    (fun w => litToks w ++ [RTok.ws1])

/-- Alternatives of `r"تجربة\s+.*(سابقة|أخرى)"`. -/
def infoPat5 : List (List RTok) :=
  [litToks ("تجربة") ++ [RTok.wsPlus, RTok.dotStar] ++ litToks ("سابقة"),
   litToks ("تجربة") ++ [RTok.wsPlus, RTok.dotStar] ++ litToks ("أخرى")]

/-- `info_gain_points`: one point per matched indicator; only the first
pattern carries `re.I`. -/
def infoGainPoints (t : String) : ℕ :=
  (if searchRE true infoPat1 t.data then 1 else 0) +
  (if searchRE false infoPat2 t.data then 1 else 0) +
  (if searchRE false infoPat3 t.data then 1 else 0) +
  (if searchRE false infoPat4 t.data then 1 else 0) +
  (if searchRE false infoPat5 t.data then 1 else 0)

/-- `info_gain_score = _clip(info_gain_points / 5 * 100, 0, 100)`. -/
def infoGainScore (t : String) : ℚ :=
  pyClip ((infoGainPoints t : ℚ) / 5 * 100) 0 100

/-- `fluff_units = len(boiler_flags) + abs_count +
sum(c-2 for _, c in repeated if c >= 3)`. -/
def fluffUnits (t : String) : ℕ :=
  boilerCount t + absCount t +
    (((repeatedAll t).filter (fun g => 3 ≤ g.2)).map (fun g => g.2 - 2)).sum

/-- `fluff_density = _percent(fluff_units, max(1, word_count//50))` —
`//` is Python integer floor division, i.e. `Nat.div`. -/
def fluffDensity (t : String) : ℚ :=
  pyPercent ((fluffUnits t : ℕ) : ℚ) ((max 1 (wordCount t / 50) : ℕ) : ℚ)

/-- `hhi_penalty = _clip((start_hhi - 0.2) * 200, 0, 40)`. -/
def hhiPenalty (t : String) : ℚ := pyClip ((startHHI t - 1 / 5) * 200) 0 40

/-- `passive_penalty = _clip(passive_ratio, 0, 30)`. -/
def passivePenalty (t : String) : ℚ := pyClip (passiveRatio t) 0 30

/-- `fluff_penalty = _clip(fluff_density, 0, 30)`. -/
def fluffPenalty (t : String) : ℚ := pyClip (fluffDensity t) 0 30

/-- `long_sent_penalty = 10 if avg_sent > 28 else 0`. -/
def longSentPenalty (t : String) : ℚ := if 28 < avgSent t then 10 else 0

/-- `base_score` after all additions and subtractions. -/
def baseScore (t : String) : ℚ :=
  50 + pyClip (sensoryRatio t / 2) 0 20 + pyClip (ttrOf t * 40) 0 20 +
    pyClip (infoGainScore t / 5) 0 20 -
    (hhiPenalty t + passivePenalty t + fluffPenalty t + longSentPenalty t)

/-- `human_style_score = _clip(base_score, 0, 100)` (before the final
`round(·, 1)` used in the returned dict). -/
def humanStyleScore (t : String) : ℚ := pyClip (baseScore t) 0 100

/-- The eleven improvement tips of `_build_tips`, in emission order. -/
def tipsOf (t : String) : List String :=
  (if sensoryRatio t < (0.8 : ℚ) then
    ["أضِف أوصافًا حسّية دقيقة لطبق أو اثنين (قوام/تحمير/حرارة) لرفع الحسّية."] else []) ++
  (if ttrOf t < (0.35 : ℚ) then
    ["نوّع المفردات وتجنّب تكرار نفس الصفات."] else []) ++
  (if (12 : ℚ) < passiveRatio t then
    ["خفّف صيغة المبني للمجهول؛ فضّل أفعالًا مباشرة (جرّبنا/لاحظنا)."] else []) ++
  (if (25 : ℚ) < fluffDensity t then
    ["احذف العموميات وبدّلها بأمثلة محددة قابلة للتحقق."] else []) ++
  (if (0.28 : ℚ) < startHHI t then
    ["ابدأ الجمل بطرق مختلفة (حالات/زمن/جار ومجرور/شرط) لكسر الرتابة."] else []) ++
  (if (28 : ℚ) < avgSent t then
    ["قسّم الجمل الطويلة (>28 كلمة) إلى جملتين واضحتيْن."] else []) ++
  (if infoGainScore t < (60 : ℚ) then
    ["أضِف Pro Tip عمليًا أو مقارنة موجزة أو سلبية صغيرة متوازنة لرفع Information Gain."] else []) ++
  (if eeatScore t < (50 : ℚ) then
    ["أبرز خبرة مباشرة أو منهجية تحرير مختصرة لتعزيز E-E-A-T."] else []) ++
  (if 0 < absCount t then
    ["خفّف من الكلمات المطلقة (مثل: دائمًا/الأفضل) واستبدلها بتوصيف قابل للنقاش."] else []) ++
  (if !(repeatedAll t).isEmpty then
    ["هناك عبارات متكررة؛ راجع أكثر N-grams تكرارًا وخفف تكرارها."] else []) ++
  (if 0 < boilerCount t then
    ["توجد عبارات قالبية عامة؛ استبدلها بتفاصيل ملموسة من التجربة."] else [])

/-- The subset of the report dictionary returned by `quality_report`
that the claims quantify over, with each field rounded exactly where
the source rounds it. -/
structure Report where
  char_count : ℕ
  word_count : ℕ
  sentence_count : ℕ
  paragraph_count : ℕ
  avg_sentence_length : ℚ
  start_hhi : ℚ
  ttr : ℚ
  sensory_ratio : ℚ
  passive_ratio : ℚ
  repeated_phrases : List (String × ℕ)
  absolutes_count : ℕ
  eeat_score : ℚ
  info_gain_score : ℚ
  fluff_density : ℚ
  human_style_score : ℚ
  tips : List String
  deriving DecidableEq

/-- Embedding of `quality_report` (the metrics the claims are about). -/
def quality_report (t : String) : Report where
  char_count := t.data.length
  word_count := wordCount t
  sentence_count := sentenceCount t
  paragraph_count := paragraphCount t
  avg_sentence_length := pyRound (avgSent t) 2
  start_hhi := pyRound (startHHI t) 3
  ttr := pyRound (ttrOf t) 3
  sensory_ratio := pyRound (sensoryRatio t) 2
  passive_ratio := pyRound (passiveRatio t) 2
  repeated_phrases := repeatedPhrases t
  absolutes_count := absCount t
  eeat_score := pyRound (eeatScore t) 1
  info_gain_score := pyRound (infoGainScore t) 1
  fluff_density := pyRound (fluffDensity t) 2
  human_style_score := pyRound (humanStyleScore t) 1
  tips := tipsOf t

/-! ### Refinement definitions written from the specification's words -/

/-- The composite-score formula exactly as claim C2 states it: baseline
50, independently capped additive terms written with `min`, penalties
written with `min`/`max`, a flat −10 for long sentences, and a final
clamp to [0, 100]. -/
def c2SpecScore (t : String) : ℚ :=
  pyClip
    (50 + min (sensoryRatio t / 2) 20 + min (ttrOf t * 40) 20 +
      min (infoGainScore t / 5) 20 -
      min (max 0 ((startHHI t - 1 / 5) * 200)) 40 -
      min (passiveRatio t) 30 - min (fluffDensity t) 30 -
      (if 28 < avgSent t then 10 else 0)) 0 100

/-- The fluff-density formula exactly as claim C6 states it: the
denominator is `max(1, word_count / 50)` with real (not floor)
division, e.g. `1.5` for 75 words. -/
def c6SpecFluff (t : String) : ℚ :=
  100 * (fluffUnits t : ℚ) / max 1 ((wordCount t : ℚ) / 50)

/-- The fluff-density formula as amended: floor division by 50, as the
code computes it. -/
def c6AmendedFluff (t : String) : ℚ :=
  100 * (fluffUnits t : ℚ) / ((max 1 (wordCount t / 50) : ℕ) : ℚ)

/-! ### Generic lemmas about the numeric helpers -/

theorem pyClip_lower (x lo hi : ℚ) : lo ≤ pyClip x lo hi := le_max_left _ _

theorem pyClip_upper (x lo hi : ℚ) (h : lo ≤ hi) : pyClip x lo hi ≤ hi :=
  max_le h (min_le_left _ _)

theorem pyClip_eq_min (x hi : ℚ) (hx : 0 ≤ x) (hhi : 0 ≤ hi) :
    pyClip x 0 hi = min x hi := by
  unfold pyClip
  rw [min_comm]
  refine max_eq_right (le_min ?_ ?_)
  · exact hx
  · exact hhi

theorem pyPercent_nonneg (x tot : ℚ) (hx : 0 ≤ x) (ht : 0 ≤ tot) :
    0 ≤ pyPercent x tot := by
  unfold pyPercent
  split
  · exact le_refl 0
  · exact div_nonneg (mul_nonneg (by norm_num) hx) ht

theorem pyPercent_le_100 (x tot : ℚ) (hx : 0 ≤ x) (h : x ≤ tot) :
    pyPercent x tot ≤ 100 := by
  unfold pyPercent
  split
  · norm_num
  · rename_i h0
    have htpos : 0 < tot := lt_of_le_of_ne (hx.trans h) (Ne.symm h0)
    rw [div_le_iff₀ htpos]
    nlinarith

theorem roundHalfEven_le {q : ℚ} {n : ℤ} (h : q ≤ n) : roundHalfEven q ≤ n := by
  unfold roundHalfEven
  have hf : ⌊q⌋ ≤ n := by simpa using Int.floor_le_floor h
  split
  · exact hf
  · split
    · rename_i h1 h2
      have : (⌊q⌋ : ℚ) < q := by
        have := Int.floor_le q
        nlinarith
      have hlt : ⌊q⌋ < n := by
        by_contra hc
        push_neg at hc
        have : (n : ℚ) ≤ (⌊q⌋ : ℚ) := by exact_mod_cast hc
        linarith
      omega
    · rename_i h1 h2
      have hq : q = (⌊q⌋ : ℚ) + 1 / 2 := by linarith
      have hlt : ⌊q⌋ < n := by
        by_contra hc
        push_neg at hc
        have : (n : ℚ) ≤ (⌊q⌋ : ℚ) := by exact_mod_cast hc
        linarith
      split
      · omega
      · omega

theorem le_roundHalfEven {q : ℚ} {n : ℤ} (h : (n : ℚ) ≤ q) :
    n ≤ roundHalfEven q := by
  unfold roundHalfEven
  have hf : n ≤ ⌊q⌋ := Int.le_floor.mpr h
  split
  · exact hf
  · split
    · omega
    · split
      · omega
      · omega

theorem pyRound_nonneg {q : ℚ} (d : ℕ) (h : 0 ≤ q) : 0 ≤ pyRound q d := by
  unfold pyRound
  have h10 : (0 : ℚ) < 10 ^ d := by positivity
  have : (0 : ℤ) ≤ roundHalfEven (q * 10 ^ d) :=
    le_roundHalfEven (by positivity)
  have : (0 : ℚ) ≤ (roundHalfEven (q * 10 ^ d) : ℚ) := by exact_mod_cast this
  positivity

theorem pyRound_le_int {q : ℚ} {n : ℤ} (d : ℕ) (h : q ≤ n) :
    pyRound q d ≤ n := by
  unfold pyRound
  have h10 : (0 : ℚ) < 10 ^ d := by positivity
  have h1 : q * 10 ^ d ≤ ((n * 10 ^ d : ℤ) : ℚ) := by
    push_cast
    nlinarith
  have h2 : roundHalfEven (q * 10 ^ d) ≤ n * 10 ^ d := roundHalfEven_le h1
  have h3 : (roundHalfEven (q * 10 ^ d) : ℚ) ≤ ((n * 10 ^ d : ℤ) : ℚ) := by
    exact_mod_cast h2
  rw [div_le_iff₀ h10]
  push_cast at h3 ⊢
  nlinarith

theorem pyRound_of_int {q : ℚ} {m : ℤ} (d : ℕ) (h : q * 10 ^ d = m) :
    pyRound q d = q := by
  unfold pyRound
  have h10 : (0 : ℚ) < 10 ^ d := by positivity
  have hfloor : ⌊q * 10 ^ d⌋ = m := by rw [h]; exact Int.floor_intCast m
  have hround : roundHalfEven (q * 10 ^ d) = m := by
    unfold roundHalfEven
    rw [hfloor, h]
    norm_num
  rw [hround]
  field_simp
  rw [← h]

/-! ### Non-negativity and range of the individual metrics -/

theorem sensHits_le (t : String) : sensHits t ≤ wordCount t :=
  List.countP_le_length _

theorem sensoryRatio_nonneg (t : String) : 0 ≤ sensoryRatio t :=
  pyPercent_nonneg _ _ (by positivity) (by positivity)

theorem sensoryRatio_le_100 (t : String) : sensoryRatio t ≤ 100 :=
  pyPercent_le_100 _ _ (by positivity) (by exact_mod_cast sensHits_le t)

theorem firstDedup_length_le [DecidableEq α] (l : List α) :
    (firstDedup l).length ≤ l.length := by
  induction l with
  | nil => simp [firstDedup]
  | cons x xs ih =>
    simp only [firstDedup, List.length_cons]
    have := List.length_filter_le (fun y => y ≠ x) (firstDedup xs)
    omega

theorem ttr_nonneg (t : String) : 0 ≤ ttrOf t := by
  unfold ttrOf
  split
  · exact le_refl 0
  · positivity

theorem ttr_le_one (t : String) : ttrOf t ≤ 1 := by
  unfold ttrOf
  split
  · norm_num
  · rename_i hne
    have hlen : (firstDedup ((wordsS t).map pyLower)).length ≤
        (wordsS t).length := by
      have h1 := firstDedup_length_le ((wordsS t).map pyLower)
      simpa using h1
    have hmax : (wordsS t).length ≤ max 1 (wordsS t).length :=
      le_max_right _ _
    have hpos : (0 : ℚ) < ((max 1 (wordsS t).length : ℕ) : ℚ) := by
      have : 1 ≤ max 1 (wordsS t).length := le_max_left _ _
      exact_mod_cast Nat.lt_of_lt_of_le Nat.zero_lt_one this
    rw [div_le_one hpos]
    exact_mod_cast hlen.trans hmax

theorem passiveRatio_nonneg (t : String) : 0 ≤ passiveRatio t :=
  pyPercent_nonneg _ _ (by positivity) (by positivity)

theorem fluffDensity_nonneg (t : String) : 0 ≤ fluffDensity t :=
  pyPercent_nonneg _ _ (by positivity) (by positivity)

theorem infoGainScore_nonneg (t : String) : 0 ≤ infoGainScore t :=
  pyClip_lower _ _ _

theorem infoGainScore_le_100 (t : String) : infoGainScore t ≤ 100 :=
  pyClip_upper _ _ _ (by norm_num)

theorem eeat_flag_le_one (t : String) :
    eeatExperience t ≤ 1 ∧ eeatExpertise t ≤ 1 ∧ eeatAuthor t ≤ 1 ∧
      eeatTrust t ≤ 1 := by
  unfold eeatExperience eeatExpertise eeatAuthor eeatTrust
  refine ⟨?_, ?_, ?_, ?_⟩ <;> split <;> simp

theorem eeatScore_nonneg (t : String) : 0 ≤ eeatScore t := by
  unfold eeatScore
  positivity

theorem eeatScore_le_100 (t : String) : eeatScore t ≤ 100 := by
  unfold eeatScore
  obtain ⟨h1, h2, h3, h4⟩ := eeat_flag_le_one t
  have hsum : eeatExperience t + eeatExpertise t + eeatAuthor t +
      eeatTrust t ≤ 4 := by omega
  have : ((eeatExperience t + eeatExpertise t + eeatAuthor t +
      eeatTrust t : ℕ) : ℚ) ≤ 4 := by exact_mod_cast hsum
  linarith

theorem pyClip_eq_min_max (y hi : ℚ) (hhi : 0 ≤ hi) :
    pyClip y 0 hi = min (max 0 y) hi := by
  unfold pyClip
  simp only [max_def, min_def]
  split_ifs <;> linarith

/-! ### Whitespace lemmas for degenerate inputs -/

theorem ws_lower_fixed {c : Char} (h : pyIsSpace c = true) :
    pyLowerChar c = c := by
  unfold pyLowerChar
  split
  · rename_i hc
    exfalso
    simp only [pyIsSpace, decide_eq_true_eq] at h
    omega
  · rfl

theorem pyStrip_eq_nil {l : List Char} (h : ∀ c ∈ l, pyIsSpace c = true) :
    pyStrip l = [] := by
  unfold pyStrip
  have h1 : l.dropWhile pyIsSpace = [] := List.dropWhile_eq_nil_iff.mpr h
  rw [h1]
  rfl

theorem mem_pyStrip {c : Char} {l : List Char} (h : c ∈ pyStrip l) : c ∈ l := by
  unfold pyStrip at h
  rw [List.mem_reverse] at h
  have h2 := (List.dropWhile_sublist pyIsSpace (l := (l.dropWhile pyIsSpace).reverse)).mem h
  rw [List.mem_reverse] at h2
  exact (List.dropWhile_sublist pyIsSpace (l := l)).mem h2

theorem mem_dropWhile_of_mem {p : α → Bool} {c : α} {l : List α}
    (hc : p c = false) (h : c ∈ l) : c ∈ l.dropWhile p := by
  induction l with
  | nil => cases h
  | cons a l ih =>
    rw [List.dropWhile_cons]
    rcases List.mem_cons.mp h with rfl | hmem
    · rw [hc]
      simp
    · split
      · exact ih hmem
      · exact List.mem_cons_of_mem a hmem

theorem mem_pyStrip_of_mem {c : Char} {l : List Char}
    (hc : pyIsSpace c = false) (h : c ∈ l) : c ∈ pyStrip l := by
  unfold pyStrip
  rw [List.mem_reverse]
  apply mem_dropWhile_of_mem hc
  rw [List.mem_reverse]
  exact mem_dropWhile_of_mem hc h

theorem mem_collapseWsAux {c : Char} :
    ∀ (l : List Char) (b : Bool), c ∈ collapseWsAux l b → c = ' ' ∨ c ∈ l := by
  intro l
  induction l with
  | nil => intro b h; cases h
  | cons a l ih =>
    intro b h
    unfold collapseWsAux at h
    split at h
    · split at h
      · rcases ih _ h with h1 | h1
        · exact Or.inl h1
        · exact Or.inr (List.mem_cons_of_mem a h1)
      · rcases List.mem_cons.mp h with rfl | h1
        · exact Or.inl rfl
        · rcases ih _ h1 with h2 | h2
          · exact Or.inl h2
          · exact Or.inr (List.mem_cons_of_mem a h2)
    · rcases List.mem_cons.mp h with rfl | h1
      · exact Or.inr (List.mem_cons_self _ _)
      · rcases ih _ h1 with h2 | h2
        · exact Or.inl h2
        · exact Or.inr (List.mem_cons_of_mem a h2)

theorem mem_collapseWsAux_of_mem {c : Char} (hc : pyIsSpace c = false) :
    ∀ (l : List Char) (b : Bool), c ∈ l → c ∈ collapseWsAux l b := by
  intro l
  induction l with
  | nil => intro b h; cases h
  | cons a l ih =>
    intro b h
    unfold collapseWsAux
    rcases List.mem_cons.mp h with rfl | h1
    · rw [hc]
      simp
    · split
      · split
        · exact ih _ h1
        · exact List.mem_cons_of_mem _ (ih _ h1)
      · exact List.mem_cons_of_mem a (ih _ h1)

theorem pyNormalize_eq_nil {l : List Char}
    (h : ∀ c ∈ l, pyIsSpace c = true) : pyNormalize l = [] := by
  unfold pyNormalize collapseWs
  rw [pyStrip_eq_nil h]
  rfl

theorem mem_pyNormalize {c : Char} {l : List Char}
    (h : c ∈ pyNormalize l) : c = ' ' ∨ c ∈ l := by
  unfold pyNormalize collapseWs at h
  rcases mem_collapseWsAux _ _ h with h1 | h1
  · exact Or.inl h1
  · exact Or.inr (mem_pyStrip h1)

theorem mem_pyNormalize_of_mem {c : Char} {l : List Char}
    (hc : pyIsSpace c = false) (h : c ∈ l) : c ∈ pyNormalize l :=
  mem_collapseWsAux_of_mem hc _ _ (mem_pyStrip_of_mem hc h)

theorem sentSplitAux_of_no_punct :
    ∀ (l acc : List Char), (∀ c ∈ l, isSentPunct c = false) →
      (∀ c ∈ acc, isSentPunct c = false) →
      sentSplitAux l acc = [acc.reverse ++ l] := by
  intro l
  induction l with
  | nil => intro acc _ _; simp [sentSplitAux]
  | cons a l ih =>
    intro acc hl hacc
    have hstep : sentSplitAux (a :: l) acc = sentSplitAux l (a :: acc) := by
      cases acc with
      | nil => simp [sentSplitAux]
      | cons p acc2 =>
        have hp : isSentPunct p = false := hacc p (List.mem_cons_self _ _)
        simp [sentSplitAux, hp]
    rw [hstep, ih (a :: acc) (fun c hc => hl c (List.mem_cons_of_mem a hc))
      (fun c hc => by
        rcases List.mem_cons.mp hc with rfl | h2
        · exact hl c (List.mem_cons_self _ _)
        · exact hacc c h2)]
    simp

theorem sentSplit_cover {c : Char} :
    ∀ (l acc : List Char), (c ∈ acc ∨ c ∈ l) → pyIsSpace c = false →
      ∃ p ∈ sentSplitAux l acc, c ∈ p := by
  intro l
  induction l with
  | nil =>
    intro acc h hc
    refine ⟨acc.reverse, by simp [sentSplitAux], ?_⟩
    rcases h with h | h
    · simpa using h
    · cases h
  | cons a l ih =>
    intro acc h hc
    unfold sentSplitAux
    split
    · rename_i hcond
      have haws : pyIsSpace a = true := by
        simp only [Bool.and_eq_true] at hcond
        exact hcond.1
      rcases h with h | h
      · exact ⟨acc.reverse, List.mem_cons_self _ _, by simpa using h⟩
      · rcases List.mem_cons.mp h with rfl | h2
        · rw [haws] at hc; cases hc
        · obtain ⟨p, hp, hcp⟩ := ih [] (Or.inr h2) hc
          exact ⟨p, List.mem_cons_of_mem _ hp, hcp⟩
    · rcases h with h | h
      · exact ih (a :: acc) (Or.inl (List.mem_cons_of_mem a h)) hc
      · rcases List.mem_cons.mp h with rfl | h2
        · exact ih (c :: acc) (Or.inl (List.mem_cons_self _ _)) hc
        · exact ih (a :: acc) (Or.inr h2) hc

theorem splitSentences_eq_nil {l : List Char}
    (h : ∀ c ∈ l, pyIsSpace c = true) : splitSentences l = [] := by
  unfold splitSentences
  rw [pyNormalize_eq_nil h]
  rfl

theorem splitSentences_ne_nil {c : Char} {l : List Char}
    (hc : pyIsSpace c = false) (h : c ∈ l) : splitSentences l ≠ [] := by
  have hn : c ∈ pyNormalize l := mem_pyNormalize_of_mem hc h
  obtain ⟨p, hp, hcp⟩ := sentSplit_cover (pyNormalize l) [] (Or.inr hn) hc
  unfold splitSentences
  intro hnil
  have : pyStrip p ∈ ((sentSplitAux (pyNormalize l) []).map pyStrip).filter
      (fun q => !q.isEmpty) := by
    rw [List.mem_filter]
    constructor
    · exact List.mem_map_of_mem pyStrip hp
    · have : c ∈ pyStrip p := mem_pyStrip_of_mem hc hcp
      cases hps : pyStrip p with
      | nil => rw [hps] at this; cases this
      | cons x xs => simp
  rw [hnil] at this
  cases this

theorem paraSplitF_ws :
    ∀ (fuel : ℕ) (l acc : List Char), (∀ c ∈ l, pyIsSpace c = true) →
      (∀ c ∈ acc, pyIsSpace c = true) →
      ((paraSplitF fuel l acc).map pyStrip).filter (fun p => !p.isEmpty) = [] := by
  intro fuel
  induction fuel with
  | zero =>
    intro l acc _ hacc
    simp [paraSplitF, pyStrip_eq_nil (fun c hc => hacc c (List.mem_reverse.mp hc))]
  | succ fuel ih =>
    intro l acc hl hacc
    cases l with
    | nil =>
      simp [paraSplitF,
        pyStrip_eq_nil (fun c hc => hacc c (List.mem_reverse.mp hc))]
    | cons a rest =>
      unfold paraSplitF
      have hrest : ∀ c ∈ rest, pyIsSpace c = true :=
        fun c hc => hl c (List.mem_cons_of_mem a hc)
      have haccA : ∀ c ∈ a :: acc, pyIsSpace c = true := fun c hc => by
        rcases List.mem_cons.mp hc with rfl | h2
        · exact hl c (List.mem_cons_self _ _)
        · exact hacc c h2
      split
      · rename_i ha
        split
        · simp only [List.map_cons, List.filter_cons]
          rw [pyStrip_eq_nil (fun c hc => hacc c (List.mem_reverse.mp hc))]
          simp only [List.isEmpty_nil, Bool.not_true, Bool.false_eq_true,
            if_false]
          exact ih _ _
            (fun c hc => hrest c (List.drop_subset _ rest hc)) (by simp)
        · subst ha
          exact ih rest _ hrest haccA
      · exact ih rest _ hrest haccA

theorem splitParagraphs_ws {l : List Char}
    (h : ∀ c ∈ l, pyIsSpace c = true) : splitParagraphs l = [] := by
  unfold splitParagraphs
  exact paraSplitF_ws _ _ _ h (by simp)

theorem passiveScanF_ws :
    ∀ (fuel : ℕ) (prevW : Bool) (l : List Char),
      (∀ c ∈ l, pyIsSpace c = true) → passiveScanF fuel prevW l = 0 := by
  intro fuel
  induction fuel with
  | zero => intro prevW l _; rfl
  | succ fuel ih =>
    intro prevW l hl
    cases l with
    | nil => rfl
    | cons c rest =>
      unfold passiveScanF
      have hcne : c ≠ 'ت' := by
        intro hceq
        have hcw := hl c (List.mem_cons_self _ _)
        rw [hceq] at hcw
        simp [pyIsSpace] at hcw
      rw [if_neg (by
        intro hcond
        simp only [Bool.and_eq_true, decide_eq_true_eq] at hcond
        exact hcne hcond.1.2)]
      exact ih _ rest (fun x hx => hl x (List.mem_cons_of_mem c hx))

theorem passiveScan_ws {l : List Char}
    (h : ∀ c ∈ l, pyIsSpace c = true) : passiveScan l = 0 :=
  passiveScanF_ws _ _ _ h

/-- Characters acceptable as the leading literal of a pattern for the
whitespace-text lemmas: not whitespace, and still not whitespace after
lowercasing (so the comparison fails both case-sensitively and
case-insensitively against any whitespace character). -/
def headLitOK : List RTok → Bool
  | RTok.lit c :: _ => !pyIsSpace c && !pyIsSpace (pyLowerChar c)
  | _ => false

theorem tryMatch_ws_none {ci : Bool} {a : List RTok} {l : List Char}
    (ha : headLitOK a = true) (hl : ∀ x ∈ l, pyIsSpace x = true) :
    tryMatch ci a l = none := by
  cases a with
  | nil => cases ha
  | cons tok ps =>
    cases tok with
    | lit c =>
      simp only [headLitOK, Bool.and_eq_true, Bool.not_eq_true'] at ha
      unfold tryMatch tryMatchF
      cases l with
      | nil => rfl
      | cons x s2 =>
        have hx : pyIsSpace x = true := hl x (List.mem_cons_self _ _)
        have hcond : (if ci then pyLowerChar x = pyLowerChar c
            else x = c) = False := by
          cases ci with
          | true =>
            simp only [if_true, eq_iff_iff, iff_false]
            intro heq
            rw [ws_lower_fixed hx] at heq
            rw [heq] at hx
            rw [hx] at ha
            exact absurd ha.2 (by simp)
          | false =>
            simp only [if_false, eq_iff_iff, iff_false]
            intro heq
            rw [heq] at hx
            rw [hx] at ha
            exact absurd ha.1 (by simp)
        simp [hcond]
    | wsPlus => cases ha
    | ws1 => cases ha
    | dotStar => cases ha

theorem scanCountF_ws {ci : Bool} {a : List RTok} (ha : headLitOK a = true) :
    ∀ (fuel : ℕ) (l : List Char), (∀ x ∈ l, pyIsSpace x = true) →
      scanCountF ci a fuel l = 0 := by
  intro fuel
  induction fuel with
  | zero => intro l _; rfl
  | succ fuel ih =>
    intro l hl
    cases l with
    | nil =>
      unfold scanCountF
      rw [tryMatch_ws_none ha (by simp)]
    | cons c rest =>
      unfold scanCountF
      rw [tryMatch_ws_none ha hl]
      exact ih rest (fun x hx => hl x (List.mem_cons_of_mem c hx))

theorem scanCount_ws {ci : Bool} {a : List RTok} {l : List Char}
    (ha : headLitOK a = true) (hl : ∀ x ∈ l, pyIsSpace x = true) :
    scanCount ci a l = 0 :=
  scanCountF_ws ha _ _ hl

theorem boilerCount_ws {t : String}
    (h : ∀ c ∈ t.data, pyIsSpace c = true) : boilerCount t = 0 := by
  unfold boilerCount
  apply List.sum_eq_zero
  intro y hy
  rw [List.mem_map] at hy
  obtain ⟨ps, hps, rfl⟩ := hy
  have hok : ∀ a ∈ boilerPats, headLitOK a = true := by decide
  exact scanCount_ws (hok ps hps) h

theorem bMatchAt_ws {l : List Char} {i : ℕ} {p : List Char}
    (hp : ∃ c ∈ p, pyIsSpace c = false)
    (hl : ∀ x ∈ l, pyIsSpace x = true) : bMatchAt l i p = false := by
  obtain ⟨c, hcp, hc⟩ := hp
  unfold bMatchAt
  have hbeq : ((l.drop i).take p.length == p) = false := by
    rw [beq_eq_false_iff_ne]
    intro heq
    have h1 : c ∈ (l.drop i).take p.length := by rw [heq]; exact hcp
    have h2 : c ∈ l := List.drop_subset i l (List.take_subset _ _ h1)
    rw [hl c h2] at hc
    cases hc
  rw [hbeq]
  simp

theorem searchPhrases_ws {l : List Char} {ps : List String}
    (hps : ∀ p ∈ ps, ∃ c ∈ p.data, pyIsSpace c = false)
    (hl : ∀ x ∈ l, pyIsSpace x = true) : searchPhrases l ps = false := by
  unfold searchPhrases
  rw [List.any_eq_false]
  intro i _
  intro hcontra
  rw [List.any_eq_true] at hcontra
  obtain ⟨p, hp, hb⟩ := hcontra
  rw [bMatchAt_ws (hps p hp) hl] at hb
  cases hb

theorem searchRE_ws {ci : Bool} {alts : List (List RTok)} {l : List Char}
    (halts : ∀ a ∈ alts, headLitOK a = true)
    (hl : ∀ x ∈ l, pyIsSpace x = true) : searchRE ci alts l = false := by
  unfold searchRE
  rw [List.any_eq_false]
  intro i _
  intro hcontra
  rw [List.any_eq_true] at hcontra
  obtain ⟨a, ha, hsome⟩ := hcontra
  rw [tryMatch_ws_none (halts a ha)
    (fun x hx => hl x (List.drop_subset i l hx))] at hsome
  cases hsome

/-! ### Counter and concentration-index lemmas -/

theorem mem_firstDedup [DecidableEq α] {x : α} :
    ∀ {l : List α}, x ∈ firstDedup l ↔ x ∈ l := by
  intro l
  induction l with
  | nil => simp [firstDedup]
  | cons y ys ih =>
    simp only [firstDedup, List.mem_cons, List.mem_filter, ih,
      decide_eq_true_eq]
    constructor
    · rintro (rfl | ⟨h1, _⟩)
      · exact Or.inl rfl
      · exact Or.inr h1
    · rintro (rfl | h1)
      · exact Or.inl rfl
      · by_cases hxy : x = y
        · exact Or.inl hxy
        · exact Or.inr ⟨h1, hxy⟩

theorem nodup_firstDedup [DecidableEq α] :
    ∀ (l : List α), (firstDedup l).Nodup := by
  intro l
  induction l with
  | nil => simp [firstDedup]
  | cons y ys ih =>
    simp only [firstDedup]
    refine List.Nodup.cons ?_ (List.Nodup.filter _ ih)
    intro hmem
    rw [List.mem_filter] at hmem
    simp at hmem

theorem firstDedup_perm_dedup [DecidableEq α] (l : List α) :
    (firstDedup l).Perm l.dedup :=
  (List.perm_ext_iff_of_nodup (nodup_firstDedup l) (List.nodup_dedup l)).mpr
    (fun a => by rw [mem_firstDedup, List.mem_dedup])

theorem sum_counter_counts [DecidableEq α] (l : List α) :
    ((firstDedup l).map (fun x => l.count x)).sum = l.length := by
  have hperm := (firstDedup_perm_dedup l).map (fun x => l.count x)
  rw [hperm.sum_eq]
  exact List.sum_map_count_dedup_eq_length l

theorem sum_map_div (m : List ℚ) (c : ℚ) :
    (m.map (fun q => q / c)).sum = m.sum / c := by
  induction m with
  | nil => simp
  | cons a s ih => simp [ih, add_div]

theorem sum_sq_le_sq_sum (m : List ℚ) (h : ∀ q ∈ m, 0 ≤ q) :
    (m.map (fun q => q ^ 2)).sum ≤ m.sum ^ 2 := by
  induction m with
  | nil => simp
  | cons a s ih =>
    have ha : 0 ≤ a := h a (List.mem_cons_self _ _)
    have hs : ∀ q ∈ s, 0 ≤ q := fun q hq => h q (List.mem_cons_of_mem a hq)
    have hsum : 0 ≤ s.sum := List.sum_nonneg hs
    have ihs := ih hs
    simp only [List.map_cons, List.sum_cons]
    nlinarith

/-- The value summed over the top-5 bucket in `start_hhi`. -/
def hhiTerm (n : ℕ) (p : α × ℕ) : ℚ := ((p.2 : ℚ) / (n : ℚ)) ^ 2

theorem mostCommon_sum_le_counter [DecidableEq α] (n : ℕ) (k : ℕ)
    (l : List α) :
    ((mostCommon k l).map (hhiTerm n)).sum ≤
      ((counterList l).map (hhiTerm n)).sum := by
  unfold mostCommon
  set srt := List.insertionSort (fun a b => b.2 ≤ a.2) (counterList l)
    with hsrt
  have hperm : srt.Perm (counterList l) := List.perm_insertionSort _ _
  have hsplit : srt = srt.take k ++ srt.drop k :=
    (List.take_append_drop k srt).symm
  have hsum : (srt.map (hhiTerm n)).sum =
      ((srt.take k).map (hhiTerm n)).sum +
      ((srt.drop k).map (hhiTerm n)).sum := by
    conv_lhs => rw [hsplit]
    rw [List.map_append, List.sum_append]
  have hdrop : 0 ≤ ((srt.drop k).map (hhiTerm n)).sum := by
    apply List.sum_nonneg
    intro q hq
    rw [List.mem_map] at hq
    obtain ⟨p, _, rfl⟩ := hq
    exact sq_nonneg _
  have := (hperm.map (hhiTerm n)).sum_eq
  linarith

theorem counter_hhi_sum_le_one [DecidableEq α] {l : List α} (hne : l ≠ []) :
    ((counterList l).map (hhiTerm l.length)).sum ≤ 1 := by
  have hn : 0 < l.length := List.length_pos.mpr hne
  have hnq : (0 : ℚ) < (l.length : ℚ) := by exact_mod_cast hn
  unfold counterList
  rw [List.map_map]
  have hcomp : ((fun p : α × ℕ => hhiTerm l.length p) ∘
      (fun x => (x, l.count x))) =
      fun x => (((l.count x : ℚ) / (l.length : ℚ)) ^ 2) := rfl
  rw [hcomp]
  have hrw : (firstDedup l).map
      (fun x => ((l.count x : ℚ) / (l.length : ℚ)) ^ 2) =
      ((firstDedup l).map (fun x => (l.count x : ℚ) / (l.length : ℚ))).map
        (fun q => q ^ 2) := by
    rw [List.map_map]
    rfl
  rw [hrw]
  have hterms : ∀ q ∈ (firstDedup l).map
      (fun x => (l.count x : ℚ) / (l.length : ℚ)), 0 ≤ q := by
    intro q hq
    rw [List.mem_map] at hq
    obtain ⟨x, _, rfl⟩ := hq
    positivity
  have hle := sum_sq_le_sq_sum _ hterms
  have hsum1 : ((firstDedup l).map
      (fun x => (l.count x : ℚ) / (l.length : ℚ))).sum = 1 := by
    have hdiv : (firstDedup l).map
        (fun x => (l.count x : ℚ) / (l.length : ℚ)) =
        ((firstDedup l).map (fun x => (l.count x : ℚ))).map
          (fun q => q / (l.length : ℚ)) := by
      rw [List.map_map]
      rfl
    rw [hdiv, sum_map_div]
    have hcast : ((firstDedup l).map (fun x => (l.count x : ℚ))).sum =
        ((l.length : ℕ) : ℚ) := by
      rw [← sum_counter_counts l, Nat.cast_list_sum, List.map_map]
      rfl
    rw [hcast]
    exact div_self (ne_of_gt hnq)
  rw [hsum1] at hle
  simpa using hle

theorem startHHI_nonneg (t : String) : 0 ≤ startHHI t := by
  unfold startHHI
  split
  · exact le_refl 0
  · apply List.sum_nonneg
    intro q hq
    rw [List.mem_map] at hq
    obtain ⟨p, _, rfl⟩ := hq
    exact sq_nonneg _

theorem startHHI_le_one (t : String) : startHHI t ≤ 1 := by
  unfold startHHI startTop
  split
  · norm_num
  · rename_i hne
    have hne2 : startsS t ≠ [] := by
      intro hnil
      rw [hnil] at hne
      simp at hne
    exact le_trans (mostCommon_sum_le_counter (startsS t).length 5 (startsS t))
      (counter_hhi_sum_le_one hne2)

theorem firstDedup_of_all_eq [DecidableEq α] {w : α} :
    ∀ {l : List α}, l ≠ [] → (∀ x ∈ l, x = w) → firstDedup l = [w] := by
  intro l
  induction l with
  | nil => intro h _; cases h rfl
  | cons y ys ih =>
    intro _ hall
    have hy : y = w := hall y (List.mem_cons_self _ _)
    subst hy
    simp only [firstDedup]
    congr 1
    rw [List.filter_eq_nil_iff]
    intro z hz
    have hzw : z = y :=
      hall z (List.mem_cons_of_mem y (mem_firstDedup.mp hz))
    simp [hzw]

theorem sum_map_eq_card_mul {m : List β} {f : β → ℚ} {a : ℚ}
    (h : ∀ x ∈ m, f x = a) : (m.map f).sum = m.length * a := by
  induction m with
  | nil => simp
  | cons x s ih =>
    simp only [List.map_cons, List.sum_cons, List.length_cons]
    rw [h x (List.mem_cons_self _ _),
      ih (fun y hy => h y (List.mem_cons_of_mem x hy))]
    push_cast
    ring

theorem hhi_sum_all_same [DecidableEq α] {l : List α} {w : α}
    (hne : l ≠ []) (hall : ∀ x ∈ l, x = w) :
    ((mostCommon 5 l).map (hhiTerm l.length)).sum = 1 := by
  have hfd : firstDedup l = [w] := firstDedup_of_all_eq hne hall
  have hcnt : l.count w = l.length :=
    List.count_eq_length.mpr (fun b hb => (hall b hb).symm)
  have hctr : counterList l = [(w, l.length)] := by
    unfold counterList
    rw [hfd]
    simp [hcnt]
  unfold mostCommon
  rw [hctr]
  have hsort : List.insertionSort
      (fun a b : α × ℕ => b.2 ≤ a.2) [(w, l.length)] = [(w, l.length)] := by
    simp [List.insertionSort, List.orderedInsert]
  rw [hsort]
  have hn : 0 < l.length := List.length_pos.mpr hne
  have hnq : ((l.length : ℚ)) ≠ 0 := by
    have : (0 : ℚ) < (l.length : ℚ) := by exact_mod_cast hn
    exact ne_of_gt this
  simp [hhiTerm, div_self hnq]

theorem mostCommon_even [DecidableEq α] {l : List α} {c : ℕ}
    (hall : ∀ x ∈ firstDedup l, l.count x = c)
    (hk : 5 ≤ (firstDedup l).length) :
    (mostCommon 5 l).length = 5 ∧ ∀ p ∈ mostCommon 5 l, p.2 = c := by
  unfold mostCommon
  set srt := List.insertionSort (fun a b : α × ℕ => b.2 ≤ a.2)
    (counterList l) with hsrt
  have hperm : srt.Perm (counterList l) := List.perm_insertionSort _ _
  have hlen : srt.length = (firstDedup l).length := by
    rw [hperm.length_eq]
    unfold counterList
    rw [List.length_map]
  constructor
  · rw [List.length_take, hlen]
    omega
  · intro p hp
    have hmem : p ∈ srt := List.take_subset _ _ hp
    have hmem2 : p ∈ counterList l := hperm.mem_iff.mp hmem
    unfold counterList at hmem2
    rw [List.mem_map] at hmem2
    obtain ⟨x, hx, rfl⟩ := hmem2
    exact hall x hx

theorem length_eq_card_mul [DecidableEq α] {l : List α} {c : ℕ}
    (hall : ∀ x ∈ firstDedup l, l.count x = c) :
    l.length = (firstDedup l).length * c := by
  rw [← sum_counter_counts l]
  rw [List.map_congr_left hall]
  induction (firstDedup l) with
  | nil => simp
  | cons x s ih => simp [ih]; ring

theorem pyRound_zero (d : ℕ) : pyRound 0 d = 0 :=
  pyRound_of_int (m := 0) d (by norm_num)

/-! ### Claim theorems -/

/-- C1: for every input string, the composite `human_style_score` is
clamped to [0, 100] before being reported — both the raw clamped score
and the rounded value in the returned report lie in [0, 100]. -/
theorem c1_human_style_score_in_range (t : String) :
    (0 ≤ humanStyleScore t ∧ humanStyleScore t ≤ 100) ∧
      0 ≤ (quality_report t).human_style_score ∧
      (quality_report t).human_style_score ≤ 100 := by
  have h1 : 0 ≤ humanStyleScore t := pyClip_lower _ _ _
  have h2 : humanStyleScore t ≤ 100 := pyClip_upper _ _ _ (by norm_num)
  refine ⟨⟨h1, h2⟩, ?_, ?_⟩
  · exact pyRound_nonneg 1 h1
  · have h3 : humanStyleScore t ≤ ((100 : ℤ) : ℚ) := by exact_mod_cast h2
    have := pyRound_le_int (q := humanStyleScore t) (n := 100) 1 h3
    exact_mod_cast this

/-- C2: the composite score equals the formula of §4.6 exactly as the
claim writes it — baseline 50 plus `min`-capped additive terms minus
`min`/`max`-capped penalties, clamped to [0, 100]. -/
theorem c2_composite_equals_spec_formula (t : String) :
    humanStyleScore t = c2SpecScore t := by
  unfold humanStyleScore c2SpecScore baseScore hhiPenalty passivePenalty
    fluffPenalty longSentPenalty
  rw [pyClip_eq_min (sensoryRatio t / 2) 20
      (div_nonneg (sensoryRatio_nonneg t) (by norm_num)) (by norm_num),
    pyClip_eq_min (ttrOf t * 40) 20
      (mul_nonneg (ttr_nonneg t) (by norm_num)) (by norm_num),
    pyClip_eq_min (infoGainScore t / 5) 20
      (div_nonneg (infoGainScore_nonneg t) (by norm_num)) (by norm_num),
    pyClip_eq_min (passiveRatio t) 30 (passiveRatio_nonneg t) (by norm_num),
    pyClip_eq_min (fluffDensity t) 30 (fluffDensity_nonneg t) (by norm_num),
    pyClip_eq_min_max ((startHHI t - 1 / 5) * 200) 40 (by norm_num)]
  congr 1
  ring

/-- C3 — amended: the percentage metrics `sensory_ratio`, `eeat_score`
and `info_gain_score` lie in [0, 100] and the unit ratios `ttr` and
`start_hhi` lie in [0, 1]; `passive_ratio` and `fluff_density` are
non-negative but are NOT bounded by 100; and when a denominator is zero
(zero word count for `sensory_ratio`/`ttr`, zero sentence count for
`passive_ratio`) the ratio defaults to 0.0 rather than failing. -/
theorem c3_amended_ratio_ranges (t : String) :
    (0 ≤ sensoryRatio t ∧ sensoryRatio t ≤ 100) ∧
    (0 ≤ ttrOf t ∧ ttrOf t ≤ 1) ∧
    (0 ≤ eeatScore t ∧ eeatScore t ≤ 100) ∧
    (0 ≤ infoGainScore t ∧ infoGainScore t ≤ 100) ∧
    (0 ≤ startHHI t ∧ startHHI t ≤ 1) ∧
    0 ≤ passiveRatio t ∧ 0 ≤ fluffDensity t ∧
    (wordCount t = 0 → sensoryRatio t = 0 ∧ ttrOf t = 0) ∧
    (sentenceCount t = 0 → passiveRatio t = 0) := by
  refine ⟨⟨sensoryRatio_nonneg t, sensoryRatio_le_100 t⟩,
    ⟨ttr_nonneg t, ttr_le_one t⟩,
    ⟨eeatScore_nonneg t, eeatScore_le_100 t⟩,
    ⟨infoGainScore_nonneg t, infoGainScore_le_100 t⟩,
    ⟨startHHI_nonneg t, startHHI_le_one t⟩,
    passiveRatio_nonneg t, fluffDensity_nonneg t, ?_, ?_⟩
  · intro hwc
    have hw : wordsS t = [] := List.length_eq_zero.mp hwc
    constructor
    · unfold sensoryRatio
      rw [hwc]
      simp [pyPercent]
    · unfold ttrOf
      rw [hw]
      simp
  · intro hsc
    have hsent : sentencesS t = [] := List.length_eq_zero.mp hsc
    have hws : ∀ c ∈ t.data, pyIsSpace c = true := by
      intro c hc
      by_contra hnw
      have hnw2 : pyIsSpace c = false := by
        revert hnw
        cases pyIsSpace c <;> simp
      exact splitSentences_ne_nil hnw2 hc hsent
    have hhits : passiveHits t = 0 := passiveScan_ws hws
    unfold passiveRatio
    rw [hhits]
    simp [pyPercent]

/-- Witness for the amended C3 at the empty input, discharging both
zero-denominator hypotheses. -/
theorem c3_amended_ratio_ranges_witness :
    (sensoryRatio ("") = 0 ∧ ttrOf ("") = 0) ∧ passiveRatio ("") = 0 :=
  ⟨(c3_amended_ratio_ranges ("")).2.2.2.2.2.2.2.1 (by decide),
   (c3_amended_ratio_ranges ("")).2.2.2.2.2.2.2.2 (by decide)⟩

/-- C3 — counterexample: on the single-sentence input
`"تم أكل تم شرب تم نوم"` the code reports `passive_ratio = 300`,
contradicting the claim that every ratio metric is a percentage in
[0, 100] or unit ratio in [0, 1] and that `passive_ratio` never exceeds
100. -/
theorem c3_counterexample_passive_ratio_300 :
    (quality_report ("تم أكل تم شرب تم نوم")).passive_ratio = 300 ∧
    (100 : ℚ) < (quality_report ("تم أكل تم شرب تم نوم")).passive_ratio := by
  have h1 : passiveHits ("تم أكل تم شرب تم نوم") = 3 := by decide
  have h2 : sentenceCount ("تم أكل تم شرب تم نوم") = 1 := by decide
  have h3 : (quality_report ("تم أكل تم شرب تم نوم")).passive_ratio = 300 := by
    show pyRound (passiveRatio ("تم أكل تم شرب تم نوم")) 2 = 300
    unfold passiveRatio
    rw [h1, h2]
    have hpp : pyPercent ((3 : ℕ) : ℚ) ((max 1 1 : ℕ) : ℚ) = 300 := by
      norm_num [pyPercent]
    rw [hpp]
    rw [pyRound_of_int (m := 30000) 2 (by norm_num)]
  exact ⟨h3, by rw [h3]; norm_num⟩

/-- C4: empty or whitespace-only input produces a well-formed report
with `word_count`, `sentence_count` and `paragraph_count` equal to 0
and every ratio metric (`sensory_ratio`, `ttr`, `passive_ratio`,
`fluff_density`, `eeat_score`, `info_gain_score`, `start_hhi`,
`avg_sentence_length`) equal to 0; totality of the Lean embedding is
the no-exception guarantee. -/
theorem c4_whitespace_input_all_zero (t : String)
    (h : ∀ c ∈ t.data, pyIsSpace c = true) :
    (quality_report t).word_count = 0 ∧
    (quality_report t).sentence_count = 0 ∧
    (quality_report t).paragraph_count = 0 ∧
    (quality_report t).sensory_ratio = 0 ∧
    (quality_report t).ttr = 0 ∧
    (quality_report t).passive_ratio = 0 ∧
    (quality_report t).fluff_density = 0 ∧
    (quality_report t).eeat_score = 0 ∧
    (quality_report t).info_gain_score = 0 ∧
    (quality_report t).start_hhi = 0 ∧
    (quality_report t).avg_sentence_length = 0 := by
  have hnorm : pyNormalize t.data = [] := pyNormalize_eq_nil h
  have hwords : wordsS t = [] := by
    unfold wordsS wordsOf
    rw [hnorm]
    rfl
  have hwc : wordCount t = 0 := by unfold wordCount; rw [hwords]; rfl
  have hsent : sentencesS t = [] := by
    unfold sentencesS
    exact splitSentences_eq_nil h
  have hsc : sentenceCount t = 0 := by unfold sentenceCount; rw [hsent]; rfl
  have htoks : toksLower t = [] := by unfold toksLower; rw [hwords]; rfl
  have hrep : repeatedAll t = [] := by
    unfold repeatedAll
    rw [htoks]
    rfl
  have hsensor : sensoryRatio t = 0 := by
    unfold sensoryRatio
    rw [hwc]
    simp [pyPercent]
  have httr : ttrOf t = 0 := by unfold ttrOf; rw [hwords]; simp
  have hpassive : passiveRatio t = 0 := by
    unfold passiveRatio
    rw [show passiveHits t = 0 from passiveScan_ws h, hsc]
    simp [pyPercent]
  have hfluff : fluffDensity t = 0 := by
    have habs : absCount t = 0 := by unfold absCount; rw [hwords]; rfl
    have hunits : fluffUnits t = 0 := by
      unfold fluffUnits
      rw [boilerCount_ws h, habs, hrep]
      rfl
    unfold fluffDensity
    rw [hunits]
    simp [pyPercent]
  have heeat : eeatScore t = 0 := by
    unfold eeatScore eeatExperience eeatExpertise eeatAuthor eeatTrust
    rw [searchPhrases_ws (by decide) h, searchPhrases_ws (by decide) h,
      searchPhrases_ws (by decide) h, searchPhrases_ws (by decide) h]
    norm_num
  have hinfo : infoGainScore t = 0 := by
    unfold infoGainScore infoGainPoints
    rw [searchRE_ws (by decide) h, searchRE_ws (by decide) h,
      searchRE_ws (by decide) h, searchRE_ws (by decide) h,
      searchRE_ws (by decide) h]
    norm_num [pyClip]
  have hstarts : startsS t = [] := by unfold startsS; rw [hsent]; rfl
  have hhhi : startHHI t = 0 := by
    unfold startHHI
    rw [hstarts]
    rfl
  have havg : avgSent t = 0 := by
    unfold avgSent sentLens
    rw [hsent]
    simp
  refine ⟨hwc, hsc, ?_, ?_, ?_, ?_, ?_, ?_, ?_, ?_, ?_⟩
  · show paragraphCount t = 0
    unfold paragraphCount splitParagraphs
    rw [paraSplitF_ws _ _ _ h (by simp)]
    rfl
  · show pyRound (sensoryRatio t) 2 = 0
    rw [hsensor, pyRound_zero]
  · show pyRound (ttrOf t) 3 = 0
    rw [httr, pyRound_zero]
  · show pyRound (passiveRatio t) 2 = 0
    rw [hpassive, pyRound_zero]
  · show pyRound (fluffDensity t) 2 = 0
    rw [hfluff, pyRound_zero]
  · show pyRound (eeatScore t) 1 = 0
    rw [heeat, pyRound_zero]
  · show pyRound (infoGainScore t) 1 = 0
    rw [hinfo, pyRound_zero]
  · show pyRound (startHHI t) 3 = 0
    rw [hhhi, pyRound_zero]
  · show pyRound (avgSent t) 2 = 0
    rw [havg, pyRound_zero]

/-- Witness for C4 at the concrete whitespace-only input `" \n\t "`. -/
theorem c4_whitespace_input_all_zero_witness :
    (quality_report (" \n\t ")).word_count = 0 ∧
    (quality_report (" \n\t ")).sentence_count = 0 ∧
    (quality_report (" \n\t ")).paragraph_count = 0 ∧
    (quality_report (" \n\t ")).sensory_ratio = 0 ∧
    (quality_report (" \n\t ")).ttr = 0 ∧
    (quality_report (" \n\t ")).passive_ratio = 0 ∧
    (quality_report (" \n\t ")).fluff_density = 0 ∧
    (quality_report (" \n\t ")).eeat_score = 0 ∧
    (quality_report (" \n\t ")).info_gain_score = 0 ∧
    (quality_report (" \n\t ")).start_hhi = 0 ∧
    (quality_report (" \n\t ")).avg_sentence_length = 0 :=
  c4_whitespace_input_all_zero (" \n\t ") (by decide)

/-- C7: for every input with at least one sentence start, `start_hhi`
is the sum of squared frequency shares over only the five most frequent
sentence-start tokens, lies in [0, 1], equals exactly 1 when every
sentence starts with the same token, and is below 0.3 whenever there
are at least five distinct, evenly distributed start tokens. -/
theorem c7_start_hhi_concentration (t : String) (hne : startsS t ≠ []) :
    startHHI t = ((startTop t).map
      (fun p => ((p.2 : ℚ) / ((startsS t).length : ℚ)) ^ 2)).sum ∧
    (0 ≤ startHHI t ∧ startHHI t ≤ 1) ∧
    ((∃ w, ∀ x ∈ startsS t, x = w) → startHHI t = 1) ∧
    (∀ c : ℕ, 0 < c →
      (∀ x ∈ firstDedup (startsS t), (startsS t).count x = c) →
      5 ≤ (firstDedup (startsS t)).length → startHHI t < 3 / 10) := by
  have hb : (startsS t).isEmpty = false := by
    cases hx : startsS t with
    | nil => exact absurd hx hne
    | cons a s => rfl
  have hunf : startHHI t = ((mostCommon 5 (startsS t)).map
      (hhiTerm (startsS t).length)).sum := by
    unfold startHHI startTop
    rw [hb]
    rfl
  refine ⟨?_, ⟨startHHI_nonneg t, startHHI_le_one t⟩, ?_, ?_⟩
  · rw [hunf]
    rfl
  · rintro ⟨w, hall⟩
    rw [hunf]
    exact hhi_sum_all_same hne hall
  · intro c hc hall hk
    obtain ⟨hlen5, hmem⟩ := mostCommon_even hall hk
    have hn : (startsS t).length = (firstDedup (startsS t)).length * c :=
      length_eq_card_mul hall
    rw [hunf]
    have hsum : ((mostCommon 5 (startsS t)).map
        (hhiTerm (startsS t).length)).sum =
        5 * ((c : ℚ) / ((startsS t).length : ℚ)) ^ 2 := by
      rw [sum_map_eq_card_mul (a := ((c : ℚ) /
          ((startsS t).length : ℚ)) ^ 2) ?_, hlen5]
      · norm_num
      · intro p hp
        unfold hhiTerm
        rw [hmem p hp]
    rw [hsum, hn]
    generalize hgen : (firstDedup (startsS t)).length = k at hk ⊢
    have hkq : (5 : ℚ) ≤ (k : ℚ) := by exact_mod_cast hk
    have hcq : (0 : ℚ) < (c : ℚ) := by exact_mod_cast hc
    have hkq0 : (0 : ℚ) < (k : ℚ) := by linarith
    have hquot : ((c : ℚ) / ((k * c : ℕ) : ℚ)) = 1 / (k : ℚ) := by
      push_cast
      rw [mul_comm]
      rw [div_mul_eq_div_div]
      rw [div_self (ne_of_gt hcq)]
    rw [hquot]
    have hpos : (0 : ℚ) < (k : ℚ) ^ 2 := by positivity
    rw [div_pow, one_pow, mul_one_div, div_lt_iff₀ hpos]
    have h25 : (25 : ℚ) ≤ (k : ℚ) ^ 2 := by
      have hmul : (5 : ℚ) * 5 ≤ (k : ℚ) * (k : ℚ) :=
        mul_le_mul hkq hkq (by norm_num) (by linarith)
      calc (25 : ℚ) = 5 * 5 := by norm_num
        _ ≤ (k : ℚ) * (k : ℚ) := hmul
        _ = (k : ℚ) ^ 2 := (sq (k : ℚ)).symm
    linarith

/-- Witness for C7 at a concrete input whose two sentences both start
with the token `هو`, exercising the all-same-start branch. -/
theorem c7_start_hhi_concentration_witness :
    startHHI ("هو جاء. هو ذهب.") = 1 :=
  (c7_start_hhi_concentration ("هو جاء. هو ذهب.") (by decide)).2.2.1
    ⟨("هو"), by decide⟩

/-- Input for claim C5's counterexample: the bigram `جدا جدا` occurs
five times (overlapping) in the token stream. -/
def c5Jadda : String := "جدا جدا جدا جدا جدا جدا"

/-- Input for claim C5's amended statement: the 2-word phrase
`طعم رائع` of non-stopword tokens occurs five times. -/
def c5Phrase : String := "طعم رائع طعم رائع طعم رائع طعم رائع طعم رائع"

/-- C5 — counterexample: in a text where the bigram `جدا جدا` appears
five times in the word stream, `repeated_phrases` is empty, because
`جدا` is a stopword and is removed before n-gram construction. -/
theorem c5_counterexample_jadda_filtered :
    (ngramsOf ((wordsS c5Jadda).map pyLower) 2).count ("جدا جدا") = 5 ∧
    AR_STOPWORDS.contains ("جدا") = true ∧
    (quality_report c5Jadda).repeated_phrases = [] := by
  refine ⟨by decide, by decide, by decide⟩

/-- C5 — amended: for a synthetic text in which a 2-word phrase of
non-stopword tokens (`طعم رائع`) appears five times, that phrase is
reported in `repeated_phrases` with count 5 ≥ 3; a phrase of stopwords
such as `جدا جدا` can never be reported. -/
theorem c5_amended_nonstopword_bigram_flagged :
    (ngramsOf ((wordsS c5Phrase).map pyLower) 2).count ("طعم رائع") = 5 ∧
    AR_STOPWORDS.contains ("طعم") = false ∧
    AR_STOPWORDS.contains ("رائع") = false ∧
    (("طعم رائع", 5) ∈ (quality_report c5Phrase).repeated_phrases) := by
  refine ⟨by decide, by decide, by decide, by decide⟩

/-- Input for claim C6's counterexample: exactly 75 words, three of
which (`لا`) are in the absolute-words lexicon. -/
def c6Input : String := "b0 b1 b2 b3 b4 b5 b6 b7 b8 b9 b10 b11 b12 b13 b14 b15 b16 b17 b18 b19 b20 b21 b22 b23 b24 b25 b26 b27 b28 b29 b30 b31 b32 b33 b34 b35 b36 b37 b38 b39 b40 b41 b42 b43 b44 b45 b46 b47 b48 b49 b50 b51 b52 b53 b54 b55 b56 b57 b58 b59 b60 b61 b62 b63 b64 b65 b66 b67 b68 b69 b70 b71 لا لا لا"

/-- C6 — counterexample: for 75 words and 3 fluff units the code
divides by `max(1, 75 // 50) = 1` (floor division) and reports
`fluff_density = 300`, while the claim's formula with real division by
`max(1, 75/50) = 1.5` gives 200. -/
theorem c6_counterexample_floor_division :
    fluffDensity c6Input = 300 ∧ c6SpecFluff c6Input = 200 ∧
    fluffDensity c6Input ≠ c6SpecFluff c6Input := by
  have h1 : fluffUnits c6Input = 3 := by decide
  have h2 : wordCount c6Input = 75 := by decide
  have hd : fluffDensity c6Input = 300 := by
    unfold fluffDensity
    rw [h1, h2]
    norm_num [pyPercent]
  have hs : c6SpecFluff c6Input = 200 := by
    unfold c6SpecFluff
    rw [h1, h2]
    rw [max_eq_right (by norm_num : (1 : ℚ) ≤ (75 : ℕ) / 50)]
    norm_num
  exact ⟨hd, hs, by rw [hd, hs]; norm_num⟩

/-- C6 — amended: for every input, `fluff_density` equals
100 × fluff_units / max(1, word_count // 50) with floor division
(`word_count // 50` is integer division, so the denominator for 75
words is 1, not 1.5). -/
theorem c6_amended_fluff_formula (t : String) :
    fluffDensity t = c6AmendedFluff t := by
  unfold fluffDensity c6AmendedFluff pyPercent
  have h1 : 0 < max 1 (wordCount t / 50) := by
    have := le_max_left 1 (wordCount t / 50)
    omega
  have h2 : ((max 1 (wordCount t / 50) : ℕ) : ℚ) ≠ 0 := by
    have : (0 : ℚ) < ((max 1 (wordCount t / 50) : ℕ) : ℚ) := by
      exact_mod_cast h1
    exact ne_of_gt this
  rw [if_neg h2]

/-- C8 — counterexample: for the input `"ab\ncd"` — two non-empty
lines without sentence-terminal punctuation joined by a single
newline — the segmenter yields one sentence, not the two the claim
requires. -/
theorem c8_counterexample_newline_one_sentence :
    (quality_report ("ab\ncd")).sentence_count = 1 := by decide

/-- C8 — amended: `_normalize` replaces the newline by a space before
sentence splitting, and the `\n+` alternative of the split pattern can
then never fire, so two non-blank lines without sentence-terminal
punctuation joined by a single newline form ONE sentence. -/
theorem c8_amended_newline_collapsed (l1 l2 : List Char)
    (h1 : ∃ c ∈ l1, pyIsSpace c = false)
    (h2 : ∃ c ∈ l2, pyIsSpace c = false)
    (hn1 : '\n' ∉ l1) (hn2 : '\n' ∉ l2)
    (hp : ∀ c ∈ l1 ++ '\n' :: l2, isSentPunct c = false) :
    sentenceCount ⟨l1 ++ '\n' :: l2⟩ = 1 := by
  obtain ⟨c, hc1, hcw⟩ := h1
  have hdata : (⟨l1 ++ '\n' :: l2⟩ : String).data = l1 ++ '\n' :: l2 := rfl
  unfold sentenceCount sentencesS splitSentences
  rw [hdata]
  have hnp : ∀ d ∈ pyNormalize (l1 ++ '\n' :: l2), isSentPunct d = false := by
    intro d hd
    rcases mem_pyNormalize hd with rfl | hd2
    · decide
    · exact hp d hd2
  rw [sentSplitAux_of_no_punct _ [] hnp (by simp)]
  have hcmem : c ∈ pyNormalize (l1 ++ '\n' :: l2) :=
    mem_pyNormalize_of_mem hcw (List.mem_append_left _ hc1)
  have hstrip : c ∈ pyStrip (pyNormalize (l1 ++ '\n' :: l2)) :=
    mem_pyStrip_of_mem hcw hcmem
  have hne : (pyStrip (pyNormalize (l1 ++ '\n' :: l2))).isEmpty = false := by
    cases hx : pyStrip (pyNormalize (l1 ++ '\n' :: l2)) with
    | nil => rw [hx] at hstrip; cases hstrip
    | cons a s => rfl
  simp [hne]

/-- Witness for the amended C8 at the concrete two-line input
`"ab\ncd"`. -/
theorem c8_amended_newline_collapsed_witness :
    sentenceCount ⟨("ab").data ++ '\n' :: ("cd").data⟩ = 1 :=
  c8_amended_newline_collapsed ("ab").data ("cd").data
    (by decide) (by decide) (by decide) (by decide) (by decide)

/-- C9: splitting the multi-word absolute lexicon entries on whitespace
puts the standalone tokens `لا`, `بلا`, `شك`, `رقم`, `منافس`, `يقارن`,
`يُهزم` and `1` into `ABSOLUTE_WORDS`; every token equal to `لا` or to
`1` adds 1 to `absolutes_count`, `absolutes_count` is one of the
summands of the fluff units feeding `fluff_density`, and a positive
`absolutes_count` emits the absolute-words tip. -/
theorem c9_absolute_words_standalone_tokens :
    (AR_STOPWORDS.contains ("لا") = true ∧
     ABSOLUTE_WORDS.contains ("لا") = true ∧
     ABSOLUTE_WORDS.contains ("بلا") = true ∧
     ABSOLUTE_WORDS.contains ("شك") = true ∧
     ABSOLUTE_WORDS.contains ("رقم") = true ∧
     ABSOLUTE_WORDS.contains ("منافس") = true ∧
     ABSOLUTE_WORDS.contains ("يقارن") = true ∧
     ABSOLUTE_WORDS.contains ("يُهزم") = true ∧
     ABSOLUTE_WORDS.contains ("1") = true) ∧
    (∀ ws1 ws2 : List String,
      (ws1 ++ ("لا") :: ws2).countP (fun w => ABSOLUTE_WORDS.contains w) =
        (ws1 ++ ws2).countP (fun w => ABSOLUTE_WORDS.contains w) + 1 ∧
      (ws1 ++ ("1") :: ws2).countP (fun w => ABSOLUTE_WORDS.contains w) =
        (ws1 ++ ws2).countP (fun w => ABSOLUTE_WORDS.contains w) + 1) ∧
    (∀ t : String, absCount t ≤ fluffUnits t) ∧
    (∀ t : String, 0 < absCount t →
      ("خفّف من الكلمات المطلقة (مثل: دائمًا/الأفضل) واستبدلها بتوصيف قابل للنقاش.")
        ∈ tipsOf t) := by
  refine ⟨by decide, ?_, ?_, ?_⟩
  · intro ws1 ws2
    constructor
    · rw [List.countP_append, List.countP_append,
        List.countP_cons_of_pos _ _ (by decide)]
      omega
    · rw [List.countP_append, List.countP_append,
        List.countP_cons_of_pos _ _ (by decide)]
      omega
  · intro t
    unfold fluffUnits
    omega
  · intro t habs
    unfold tipsOf
    simp only [habs, if_true, List.mem_append, List.mem_singleton]
    tauto

/-- Witness for C9 at the concrete one-token input `"لا"`, whose report
carries the absolute-words tip. -/
theorem c9_absolute_words_standalone_tokens_witness :
    ("خفّف من الكلمات المطلقة (مثل: دائمًا/الأفضل) واستبدلها بتوصيف قابل للنقاش.")
      ∈ tipsOf ("لا") :=
  c9_absolute_words_standalone_tokens.2.2.2 ("لا") (by decide)

/-- C10: the input `"..."` has no letters or digits but one sentence
and one paragraph: `word_count = 0` yet `sentence_count = 1 ≥ 1` and
`paragraph_count = 1 ≥ 1`, with every ratio metric 0 — so "all counts
at 0" holds only for empty or whitespace-only input, not for every
word-free input. -/
theorem c10_word_free_input_nonzero_counts :
    (∀ c ∈ ("..." : String).data, isTokChar c = false) ∧
    (∃ c ∈ ("..." : String).data, pyIsSpace c = false) ∧
    (quality_report ("...")).word_count = 0 ∧
    1 ≤ (quality_report ("...")).sentence_count ∧
    1 ≤ (quality_report ("...")).paragraph_count ∧
    (quality_report ("...")).sensory_ratio = 0 ∧
    (quality_report ("...")).ttr = 0 ∧
    (quality_report ("...")).passive_ratio = 0 ∧
    (quality_report ("...")).fluff_density = 0 ∧
    (quality_report ("...")).eeat_score = 0 ∧
    (quality_report ("...")).info_gain_score = 0 ∧
    (quality_report ("...")).start_hhi = 0 ∧
    (quality_report ("...")).avg_sentence_length = 0 := by
  have hwords : wordsS ("...") = [] := by decide
  have hwc : wordCount ("...") = 0 := by decide
  have hsh : sensHits ("...") = 0 := by decide
  have hph : passiveHits ("...") = 0 := by decide
  have hsc : sentenceCount ("...") = 1 := by decide
  have hfu : fluffUnits ("...") = 0 := by decide
  have hee : eeatExperience ("...") = 0 ∧ eeatExpertise ("...") = 0 ∧
      eeatAuthor ("...") = 0 ∧ eeatTrust ("...") = 0 := by decide
  have hig : infoGainPoints ("...") = 0 := by decide
  have hstarts : startsS ("...") = [] := by decide
  have hlens : sentLens ("...") = [0] := by decide
  refine ⟨by decide, by decide, hwc, by decide, by decide,
    ?_, ?_, ?_, ?_, ?_, ?_, ?_, ?_⟩
  · show pyRound (sensoryRatio ("...")) 2 = 0
    unfold sensoryRatio
    rw [hsh, hwc]
    simp [pyPercent, pyRound_zero]
  · show pyRound (ttrOf ("...")) 3 = 0
    unfold ttrOf
    rw [hwords]
    simp [pyRound_zero]
  · show pyRound (passiveRatio ("...")) 2 = 0
    unfold passiveRatio
    rw [hph, hsc]
    norm_num [pyPercent, pyRound_zero]
  · show pyRound (fluffDensity ("...")) 2 = 0
    unfold fluffDensity
    rw [hfu, hwc]
    norm_num [pyPercent, pyRound_zero]
  · show pyRound (eeatScore ("...")) 1 = 0
    unfold eeatScore
    rw [hee.1, hee.2.1, hee.2.2.1, hee.2.2.2]
    norm_num [pyRound_zero]
  · show pyRound (infoGainScore ("...")) 1 = 0
    unfold infoGainScore
    rw [hig]
    norm_num [pyClip, pyRound_zero]
  · show pyRound (startHHI ("...")) 3 = 0
    unfold startHHI
    rw [hstarts]
    simp [pyRound_zero]
  · show pyRound (avgSent ("...")) 2 = 0
    unfold avgSent
    rw [hlens]
    norm_num [pyRound_zero]

end QC
